import Mathlib

/-!
Verification development for the pyLEEMImage decoder (`src/LEEMImage.py`).

The decoder is shallowly embedded: a file is a `List ℕ` of byte values
(each `< 256`), 16-bit header fields are decoded as signed little-endian
integers into `ℤ` (matching `struct.unpack` with format `<h`), the tagged
metadata block is decoded by a structurally recursive loop over an explicit
cursor, and raw 4-byte IEEE floats are carried as their byte patterns
(no claim inspects their numeric value).  Exceptions raised by the Python
code (`struct.error`, `IndexError`, `ValueError`, `UnboundLocalError`,
`StopIteration`, numpy reshape errors, seek errors, `DimensionError`)
are modelled by the `DecodeErr` error type of an `Except` result.
-/

deriving instance DecidableEq for Except

namespace LEEM

/-- Error outcomes of the decoder, one constructor per kind of Python
exception the source can raise. -/
inductive DecodeErr where
  | structError
  | indexError
  | valueError
  | unboundLocalOffset
  | stopIteration
  | fuelExhausted
  | seekError
  | reshapeError
  | emptyArray
  | dimensionError
  | shapeMismatch
  deriving DecidableEq, Repr

/-- Interpret a 16-bit pattern as a signed integer, as `struct.unpack` with
format `<h` does. -/
def toSigned16 (n : ℕ) : ℤ :=
  if n < 32768 then (n : ℤ) else (n : ℤ) - 65536

/-- `struct.unpack` of a little-endian signed 16-bit field at byte position
`pos` of the file; `struct.error` when fewer than 2 bytes remain. -/
def readI16 (file : List ℕ) (pos : ℤ) : Except DecodeErr ℤ :=
  if 0 ≤ pos ∧ pos + 2 ≤ (file.length : ℤ) then
    .ok (toSigned16 (file.getD pos.toNat 0 + 256 * file.getD (pos.toNat + 1) 0))
  else .error .structError

/-- `struct.unpack` of a little-endian unsigned 64-bit field (format `<Q`). -/
def readU64 (file : List ℕ) (pos : ℤ) : Except DecodeErr ℕ :=
  if 0 ≤ pos ∧ pos + 8 ≤ (file.length : ℤ) then
    let p := pos.toNat
    .ok (file.getD p 0 + 256 * (file.getD (p+1) 0 + 256 * (file.getD (p+2) 0 +
      256 * (file.getD (p+3) 0 + 256 * (file.getD (p+4) 0 + 256 * (file.getD (p+5) 0 +
      256 * (file.getD (p+6) 0 + 256 * file.getD (p+7) 0)))))))
  else .error .structError

/-- `bytes.split(b'\x00')[0]`: the prefix of a byte list up to (excluding)
the first zero byte. -/
def takeUntilNull : List ℕ → List ℕ
  | [] => []
  | b :: bs => if b = 0 then [] else b :: takeUntilNull bs

/-- `bytes.split(b'\x00')`: split a byte list at every zero byte. -/
def splitOnNull : List ℕ → List (List ℕ)
  | [] => [[]]
  | b :: bs =>
    if b = 0 then [] :: splitOnNull bs
    else
      match splitOnNull bs with
      | [] => [[b]]
      | p :: ps => (b :: p) :: ps

/-- A 4-byte slice `header[a : a+4]` as consumed by `struct.unpack('<f', ...)`;
`struct.error` when the slice is shorter than 4 bytes. -/
def slice4 (header : List ℕ) (a : ℕ) : Except DecodeErr (List ℕ) :=
  if a + 4 ≤ header.length then .ok ((header.drop a).take 4) else .error .structError

/-- The cp1252 decoding of a single byte.  Bytes 0x80 to 0x9F are mapped per
the Windows-1252 table; all other bytes coincide with their Unicode code
point.  (The five bytes cp1252 leaves undefined are mapped to their code
point here; no theorem below exercises them.) -/
def cp1252Char (b : ℕ) : Char :=
  match b with
  | 128 => Char.ofNat 8364
  | 130 => Char.ofNat 8218
  | 131 => Char.ofNat 402
  | 132 => Char.ofNat 8222
  | 133 => Char.ofNat 8230
  | 134 => Char.ofNat 8224
  | 135 => Char.ofNat 8225
  | 136 => Char.ofNat 710
  | 137 => Char.ofNat 8240
  | 138 => Char.ofNat 352
  | 139 => Char.ofNat 8249
  | 140 => Char.ofNat 338
  | 142 => Char.ofNat 381
  | 145 => Char.ofNat 8216
  | 146 => Char.ofNat 8217
  | 147 => Char.ofNat 8220
  | 148 => Char.ofNat 8221
  | 149 => Char.ofNat 8226
  | 150 => Char.ofNat 8211
  | 151 => Char.ofNat 8212
  | 152 => Char.ofNat 732
  | 153 => Char.ofNat 8482
  | 154 => Char.ofNat 353
  | 155 => Char.ofNat 8250
  | 156 => Char.ofNat 339
  | 158 => Char.ofNat 382
  | 159 => Char.ofNat 376
  | _ => Char.ofNat b

/-- `bytes.decode('cp1252')` on a byte list. -/
def decodeCp1252 (bs : List ℕ) : String :=
  String.mk (bs.map cp1252Char)

/-- The fixed unit table `units_dict` of `read_field` in the source.  Note
that entry 5 is `" K"` with a leading space, exactly as in the source. -/
def units_dict : List String :=
  ["", "V", "mA", "A", "°C", " K", "mV", "pA", "nA", "µA"]

/-- `read_field`: decode a standard data field
`name(str) - unit(ASCII digit) - 0 - value(<f float)` at tag position `pos`.
Returns `(name, unit string, raw float bytes, offset)`.  An empty
null-terminated chunk raises `IndexError` (`temp[-1]` on empty bytes), a
non-digit unit byte raises `ValueError` (`int(chr(...))`), and a short float
slice raises `struct.error`. -/
def read_field (header : List ℕ) (pos : ℕ) :
    Except DecodeErr (String × String × List ℕ × ℕ) :=
  match (takeUntilNull (header.drop (pos + 1))).getLast? with
  | Option.none => .error .indexError
  | some lastB =>
    if 48 ≤ lastB ∧ lastB ≤ 57 then
      match slice4 header (pos + (takeUntilNull (header.drop (pos + 1))).length + 2) with
      | .error e => .error e
      | .ok valBytes =>
        .ok (decodeCp1252 (takeUntilNull (header.drop (pos + 1))).dropLast,
             units_dict.getD (lastB - 48) "",
             valBytes, (takeUntilNull (header.drop (pos + 1))).length + 5)
    else .error .valueError

/-- `read_varian`: decode a varian pressure-gauge field: two consecutive
null-terminated strings (name, unit) followed by a 4-byte float.  Fewer than
two null-separated chunks raises `IndexError`. -/
def read_varian (header : List ℕ) (pos : ℕ) :
    Except DecodeErr (String × String × List ℕ × ℕ) :=
  match splitOnNull (header.drop (pos + 1)) with
  | t1 :: t2 :: _ =>
    match slice4 header (pos + t1.length + t2.length + 3) with
    | .error e => .error e
    | .ok valBytes =>
      .ok (decodeCp1252 t1, decodeCp1252 t2, valBytes, t1.length + t2.length + 6)
  | _ => .error .indexError

/-- Metadata values: the heterogeneous values stored in `self.metadata`.
4-byte IEEE floats are kept as their raw byte pattern. -/
inductive MVal where
  | bytes (bs : List ℕ)
  | int (n : ℤ)
  | byteVal (n : ℕ)
  | floatBits (bs : List ℕ)
  | pairFU (bs : List ℕ) (unit : String)
  | pairQU (q : ℚ) (unit : String)
  | str (s : String)
  | bool (b : Bool)
  | none
  | time (q : ℚ)
  deriving DecidableEq, Repr

/-- `d[k] = v` on a Python dict kept as an insertion-ordered association
list: replace the value in place if the key is present, else append. -/
def dictSet (md : List (String × MVal)) (k : String) (v : MVal) :
    List (String × MVal) :=
  match md with
  | [] => [(k, v)]
  | (k0, v0) :: rest => if k0 = k then (k, v) :: rest else (k0, v0) :: dictSet rest k v

/-- Dictionary lookup on the association list. -/
def dictGet (md : List (String × MVal)) (k : String) : Option MVal :=
  match md with
  | [] => Option.none
  | (k0, v0) :: rest => if k0 = k then some v0 else dictGet rest k

/-- Numeric value of a list of decimal digit characters. -/
def digitsVal (ds : List Char) : ℕ :=
  ds.foldl (fun acc c => 10 * acc + (c.toNat - 48)) 0

/-- Models the Python builtin `float()` on plain decimal literals, as an
exact rational: optional surrounding whitespace, optional sign, integer
digits, optional fraction, optional decimal exponent.  Anything else
(including the empty string) raises `ValueError`, modelled as `none`.
(`inf`/`nan` spellings and digit underscores are not modelled; no field-of-view
string uses them.) -/
def parsePyFloat (s : String) : Option ℚ :=
  let cs := s.trim.toList
  let (sign, cs1) :=
    match cs with
    | '-' :: rest => ((-1 : ℚ), rest)
    | '+' :: rest => ((1 : ℚ), rest)
    | _ => ((1 : ℚ), cs)
  let intDigits := cs1.takeWhile Char.isDigit
  let r1 := cs1.dropWhile Char.isDigit
  let (fracDigits, r2) :=
    match r1 with
    | '.' :: rest => (rest.takeWhile Char.isDigit, rest.dropWhile Char.isDigit)
    | _ => ([], r1)
  if intDigits.isEmpty ∧ fracDigits.isEmpty then Option.none
  else
    let mant : ℚ := (digitsVal intDigits : ℚ) +
      (digitsVal fracDigits : ℚ) / (10 : ℚ) ^ fracDigits.length
    match r2 with
    | [] => some (sign * mant)
    | e :: rest =>
      if e = 'e' ∨ e = 'E' then
        let (esign, rest1) :=
          match rest with
          | '-' :: r => (false, r)
          | '+' :: r => (true, r)
          | _ => (true, rest)
        let eDigits := rest1.takeWhile Char.isDigit
        if eDigits.isEmpty ∨ ¬ (rest1.dropWhile Char.isDigit).isEmpty then Option.none
        else if esign then some (sign * mant * (10 : ℚ) ^ digitsVal eDigits)
        else some (sign * mant / (10 : ℚ) ^ digitsVal eDigits)
      else Option.none

/-- The field-of-view branch of the tag-110 handler, applied to the decoded
string payload (after the `FOV cal. factor` entry has been stored): a string
starting with `LEED` marks a LEED image, one starting with `none` clears the
field of view, anything else is parsed as `<number>µm`, and a parse failure
is logged and otherwise ignored. -/
def fovBranch (md : List (String × MVal)) (fovStr : String) :
    List (String × MVal) :=
  if fovStr.take 4 = "LEED" then
    dictSet (dictSet md "LEED" (.bool true)) "FOV" .none
  else if fovStr.take 4 = "none" then
    dictSet md "FOV" .none
  else
    let md1 := dictSet md "LEED" (.bool false)
    match parsePyFloat ((fovStr.splitOn "µm").headD "") with
    | some q => dictSet md1 "FOV" (.pairQU q "µm")
    | Option.none => md1

/-- The `known_tags` list of standard-format data fields (Bremen, LUND and
ALBA extensions), exactly as in the source. -/
def known_tags : List ℕ :=
  [11,38,39,44,158,159,160,161,162,163,164,165,149,175,
   184,169,128,129,130,131,132,133,134,135,136,137,138,
   140,141,142,143,144,145,146,147,148,150,151,152,153,
   154,155,168,170,171,173,174,
   210,203,185,208,215,206,172,211,221,220,197,177,
   178,180,181,202,190,191,194,195,196,214,198,199,
   182,179,200,201,176,187,94,192,213,209,183,186,
   212,156,157,205,204,188,189,207,
   55]

/-- Decode the single tagged record starting at cursor `pos` (whose tag byte
is `b ≠ 255`), given the metadata so far and the value that the Python local
variable `offset` holds from the previous iteration (`Option.none` before the
first record).  Returns the updated metadata and the `offset` of this record.
An unrecognized tag only logs; it leaves `offset` at its stale previous
value, and raises `UnboundLocalError` if no record has set it yet. -/
def recordAt (header : List ℕ) (pos : ℕ) (b : ℕ) (md : List (String × MVal))
    (lastOffset : Option ℕ) : Except DecodeErr (List (String × MVal) × ℕ) :=
  if b ∈ known_tags then
    match read_field header pos with
    | .error e => .error e
    | .ok (name, unit, valBytes, off) =>
      .ok (dictSet md name (.pairFU valBytes unit), off)
  else if b = 110 then
    let temp := takeUntilNull (header.drop (pos + 1))
    let fovStr := decodeCp1252 temp
    match slice4 header (pos + temp.length + 2) with
    | .error e => .error e
    | .ok calBytes =>
      let md1 := dictSet md "FOV cal. factor" (.floatBits calBytes)
      .ok (fovBranch md1 fovStr, temp.length + 5)
  else if b = 104 then
    match slice4 header (pos + 1) with
    | .error e => .error e
    | .ok expBytes =>
      let md1 := dictSet md "Camera Exposure" (.pairFU expBytes "s")
      if pos + 5 < header.length then
        .ok (dictSet md1 "Average Images" (.byteVal (header.getD (pos + 5) 0)), 6)
      else .error .indexError
  else if b = 106 ∨ b = 107 ∨ b = 108 ∨ b = 109 ∨ b = 235 ∨ b = 236 ∨ b = 237 then
    match read_varian header pos with
    | .error e => .error e
    | .ok (name, unit, valBytes, off) =>
      .ok (dictSet md name (.pairFU valBytes unit), off)
  else if b = 100 then
    match slice4 header (pos + 1), slice4 header (pos + 5) with
    | .ok bx, .ok byv =>
      .ok (dictSet (dictSet md "Mitutoyo X" (.pairFU bx "mm")) "Mitutoyo Y"
             (.pairFU byv "mm"), 8)
    | .error e, _ => .error e
    | _, .error e => .error e
  else if b = 233 then
    let temp := takeUntilNull (header.drop (pos + 1))
    .ok (dictSet md "Image Title" (.str (decodeCp1252 temp)), temp.length + 1)
  else if b = 240 then
    if pos + 1 < header.length then
      .ok (dictSet md "MirrorState1" (.byteVal (header.getD (pos + 1) 0)), 2)
    else .error .indexError
  else if b = 242 then
    if pos + 1 < header.length then
      .ok (dictSet md "MirrorState2" (.byteVal (header.getD (pos + 1) 0)), 2)
    else .error .indexError
  else if b = 243 then
    match slice4 header (pos + 1) with
    | .error e => .error e
    | .ok valBytes => .ok (dictSet md "MCPscreen" (.pairFU valBytes "V"), 4)
  else if b = 244 then
    match slice4 header (pos + 1) with
    | .error e => .error e
    | .ok valBytes => .ok (dictSet md "MCPchannelplate" (.pairFU valBytes "V"), 4)
  else
    match lastOffset with
    | Option.none => .error .unboundLocalOffset
    | some k => .ok (md, k)

/-- State of the metadata decode loop: the metadata dictionary and the value
of the Python local `offset` from the previous iteration (if any). -/
structure MetaState where
  md : List (String × MVal)
  lastOffset : Option ℕ
  deriving DecidableEq, Repr

/-- How the metadata loop stopped: at the sentinel tag 255, or because the
byte iterator over the block was exhausted. -/
inductive StopReason where
  | sentinel
  | endOfBlock
  deriving DecidableEq, Repr

/-- The tagged-record decode loop of `_load_file`, with an explicit fuel
parameter so the recursion is structural: read the tag byte at the cursor,
stop on 255 or at the end of the block, otherwise decode one record and
advance the cursor by `offset + 1` (raising `StopIteration` when the
`[next(b_iter) for x in range(offset)]` skip runs past the block).  Returns
the final state, the final cursor, and the stop reason.  `fuelExhausted` is
never returned when the fuel is at least `header.length + 1 - pos`. -/
def decodeMetaAux (header : List ℕ) : ℕ → ℕ → MetaState →
    Option (Except DecodeErr (MetaState × ℕ × StopReason))
  | 0, _, _ => Option.none
  | Nat.succ fuel, pos, st =>
    if pos < header.length then
      let b := header.getD pos 0
      if b = 255 then some (.ok (st, pos, .sentinel))
      else
        match recordAt header pos b st.md st.lastOffset with
        | .error e => some (.error e)
        | .ok (md1, off) =>
          if header.length - (pos + 1) < off then some (.error .stopIteration)
          else decodeMetaAux header fuel (pos + off + 1) { md := md1, lastOffset := some off }
    else some (.ok (st, pos, .endOfBlock))

/-- Decode the metadata block starting at cursor 0.  (The fuel
`header.length + 1` always suffices — the loop consumes at least one byte
per record — so the `fuelExhausted` default is never produced; this is
proved below.) -/
def decodeMeta (header : List ℕ) (st : MetaState) :
    Except DecodeErr (MetaState × ℕ × StopReason) :=
  (decodeMetaAux header (header.length + 1) 0 st).getD (.error .fuelExhausted)

/-- `convert_ad_timestamp`: a Windows tick count (100-nanosecond units) to
seconds since the 1601-01-01 epoch, here as an exact rational — written
with `mkRat`, which equals `(t : ℚ) / 10 ^ 7` (proved in the C7 theorem).
(The source divides in Python floats; at the tick values considered in the
theorems the float arithmetic is exact.) -/
def convert_ad_timestamp (t : ℕ) : ℚ :=
  mkRat (t : ℤ) (10 ^ 7)

/-- Models `f.read(n)` of a file at byte position `pos`: returns the bytes
read and the new position.  A negative `n` reads to the end of the file, as
Python file objects do. -/
def fread (file : List ℕ) (pos : ℤ) (n : ℤ) : List ℕ × ℤ :=
  let eof : ℤ := max pos (file.length : ℤ)
  if n < 0 then (file.drop pos.toNat, eof)
  else ((file.drop pos.toNat).take n.toNat, min (pos + n) eof)

/-- The scalar fields of the fixed header needed downstream, together with
the metadata collected so far and the extracted tagged metadata block. -/
structure HeaderInfo where
  md : List (String × MVal)
  width : ℤ
  height : ℤ
  noimg : ℤ
  versleemdata : ℤ
  imgHeader : List ℕ
  deriving DecidableEq, Repr

/-- The optional attached-recipe step: when the declared recipe size is
nonzero, read that many bytes and skip to the fixed 232-byte boundary
(`f.seek(128 - attachedRecipeSize, 1)`); a skip before the start of the
file is a seek error. -/
def recipeStep (file : List ℕ) (md0 : List (String × MVal)) (recipeSize : ℤ) :
    Except DecodeErr (List (String × MVal) × ℤ) :=
  if recipeSize = 0 then .ok (md0, (104 : ℤ))
  else
    let r := fread file 104 recipeSize
    let p2 := r.2 + (128 - recipeSize)
    if p2 < 0 then .error .seekError
    else .ok (dictSet md0 "recipe" (.bytes r.1), p2)

/-- The fixed-header stage of `_load_file`: the identifier, the 16-bit fields
at their fixed offsets (with the alignment and spare skips), the optional
recipe blob, the first image-header block including the timestamp, and the
extraction of the tagged metadata block (256 bytes when
`versleemdata = 2`, else a 388-byte skip followed by `versleemdata` bytes). -/
def parseHeader (file : List ℕ) : Except DecodeErr HeaderInfo := do
  let idBytes := takeUntilNull (file.take 20)
  let size ← readI16 file 20
  let version ← readI16 file 22
  let bitsperpix ← readI16 file 24
  let width ← readI16 file 40
  let height ← readI16 file 42
  let noimg ← readI16 file 44
  let recipeSize ← readI16 file 46
  let md0 : List (String × MVal) :=
    [("id", .bytes idBytes), ("size", .int size), ("version", .int version),
     ("bitsperpix", .int bitsperpix), ("width", .int width), ("height", .int height)]
  let step ← recipeStep file md0 recipeSize
  let md1 := step.1
  let pos1 := step.2
  let isize ← readI16 file pos1
  let iversion ← readI16 file (pos1 + 2)
  let cLow ← readI16 file (pos1 + 4)
  let cHigh ← readI16 file (pos1 + 6)
  let ts ← readU64 file (pos1 + 8)
  let maskX ← readI16 file (pos1 + 16)
  let maskY ← readI16 file (pos1 + 18)
  let usemask := (fread file (pos1 + 20) 1).1
  let markup ← readI16 file (pos1 + 22)
  let spin ← readI16 file (pos1 + 24)
  let vers ← readI16 file (pos1 + 26)
  let md2 := md1 ++
    [("isize", .int isize), ("iversion", .int iversion),
     ("colorscale_low", .int cLow), ("colorscale_high", .int cHigh),
     ("timestamp", .time (convert_ad_timestamp ts)),
     ("mask_xshift", .int maskX), ("mask_yshift", .int maskY),
     ("usemask", .bytes usemask), ("att_markupsize", .int markup),
     ("spin", .int spin)]
  let imgHdr :=
    if vers = 2 then (fread file (pos1 + 28) 256).1
    else (fread file (pos1 + 28 + 388) vers).1
  Except.ok { md := md2, width := width, height := height, noimg := noimg,
              versleemdata := vers, imgHeader := imgHdr }

/-- `numpy.fromfile(..., dtype=np.uint16)` on a raw byte list: consecutive
little-endian 16-bit samples; a trailing odd byte is dropped (numpy keeps
only complete items). -/
def toU16List : List ℕ → List ℕ
  | b0 :: b1 :: rest => (b0 + 256 * b1) :: toU16List rest
  | _ => []

/-- Row-major reshape of a flat list into `h` rows of `w` entries. -/
def reshapeRows (xs : List α) (h w : ℕ) : List (List α) :=
  (List.range h).map (fun i => (xs.drop (i * w)).take w)

/-- `numpy.reshape([h, w])` on a flat list, following numpy's
`_fix_unknown_dimension`: ANY negative shape entry is treated as the single
unknown (wildcard) dimension; two negative entries are an error
("can only specify one unknown dimension"), a zero known dimension or a
size not divisible by the known dimension is an error, and with both
entries nonnegative the element count must match exactly. -/
def npReshape2 (xs : List ℕ) (h w : ℤ) : Except DecodeErr (List (List ℕ)) :=
  if h < 0 ∧ w < 0 then .error .reshapeError
  else if h < 0 then
    if 0 < w.toNat ∧ w.toNat ∣ xs.length then
      .ok (reshapeRows xs (xs.length / w.toNat) w.toNat)
    else .error .reshapeError
  else if w < 0 then
    if 0 < h.toNat ∧ h.toNat ∣ xs.length then
      .ok (reshapeRows xs h.toNat (xs.length / h.toNat))
    else .error .reshapeError
  else
    if xs.length = h.toNat * w.toNat then .ok (reshapeRows xs h.toNat w.toNat)
    else .error .reshapeError

/-- The pixel payload stage of `_load_file`:
`f.seek(-2*height*width, 2)` (an error when the target is before the start
of the file; a target past the end is allowed and reads nothing), read the
remaining bytes as unsigned 16-bit little-endian samples, reshape to
`[height, width]`, and flip vertically (`np.flipud`). -/
def readPixelData (file : List ℕ) (h w : ℤ) : Except DecodeErr (List (List ℕ)) :=
  let n : ℤ := 2 * h * w
  if (file.length : ℤ) < n then .error .seekError
  else
    let raw := file.drop ((file.length : ℤ) - n).toNat
    (npReshape2 (toU16List raw) h w).map List.reverse

/-- The decoded record produced by `_load_file`: the metadata dictionary,
the two scalar attributes kept outside it, and the pixel grid `self.data`. -/
structure DecodedImage where
  metadata : List (String × MVal)
  noimg : ℤ
  versleemdata : ℤ
  data : List (List ℕ)
  deriving DecidableEq, Repr

/-- `_load_file`: fixed header, tagged metadata block, then pixel payload. -/
def loadFile (file : List ℕ) : Except DecodeErr DecodedImage :=
  match parseHeader file with
  | .error e => .error e
  | .ok info =>
    match decodeMeta info.imgHeader { md := info.md, lastOffset := Option.none } with
    | .error e => .error e
    | .ok (st, _, _) =>
      match readPixelData file info.height info.width with
      | .error e => .error e
      | .ok px =>
        .ok { metadata := st.md, noimg := info.noimg,
              versleemdata := info.versleemdata, data := px }

/-- Runtime state of a `LEEMImage` object as used by the post-processing
helpers: the `width`/`height` metadata entries consulted by the dimension
check, the rest of the metadata, and the pixel grid `self.data` (as exact
rationals, since the helpers do true division). -/
structure LEEMState where
  widthMeta : ℤ
  heightMeta : ℤ
  otherMetadata : List (String × MVal)
  data : List (List ℚ)
  deriving DecidableEq, Repr

/-- `ndarray.max()` of a 2-D grid; `none` models numpy's error on an empty
array. -/
def matMax (m : List (List ℚ)) : Option ℚ :=
  m.flatten.max?

/-- `np.divide` of two grids of identical shape (element-wise true division;
broadcasting of unequal shapes is not modelled — the error stands in for
any shape numpy would not accept element-for-element). -/
def elemDiv (a b : List (List ℚ)) : Except DecodeErr (List (List ℚ)) :=
  if a.length = b.length ∧ (a.zip b).all (fun p => p.1.length = p.2.length) then
    .ok ((a.zip b).map (fun p => (p.1.zip p.2).map (fun q => q.1 / q.2)))
  else .error .shapeMismatch

/-- Element-wise subtraction of two grids of identical shape. -/
def matSub (a b : List (List ℚ)) : Except DecodeErr (List (List ℚ)) :=
  if a.length = b.length ∧ (a.zip b).all (fun p => p.1.length = p.2.length) then
    .ok ((a.zip b).map (fun p => (p.1.zip p.2).map (fun q => q.1 - q.2)))
  else .error .shapeMismatch

/-- `normalizeOnCCD`: raise `DimensionError` when the `width`/`height`
metadata of the two images differ, otherwise divide the pixel grids
element-wise and rescale by the maximum.  The result triple returns the two
object states after the call (the method mutates neither) together with the
corrected array. -/
def normalizeOnCCD (self lCCD : LEEMState) :
    Except DecodeErr (LEEMState × LEEMState × List (List ℚ)) :=
  if self.widthMeta ≠ lCCD.widthMeta ∨ self.heightMeta ≠ lCCD.heightMeta then
    .error .dimensionError
  else
    match elemDiv self.data lCCD.data with
    | .error e => .error e
    | .ok corrected =>
      match matMax corrected with
      | Option.none => .error .emptyArray
      | some m =>
        .ok (self, lCCD, corrected.map (fun row => row.map (fun x => x / m)))

/-- `filterInelasticBkg`: reassign `self.data` to the max-normalized grid,
apply the Gaussian smoothing (taken as a parameter — `scipy.ndimage`'s
floating-point kernel is outside this embedding), and return original minus
smoothed.  The returned state is the object state after the call, whose
`data` field has been overwritten. -/
def filterInelasticBkg (gauss : List (List ℚ) → List (List ℚ))
    (self : LEEMState) : Except DecodeErr (LEEMState × List (List ℚ)) :=
  match matMax self.data with
  | Option.none => .error .emptyArray
  | some m =>
    let newData := self.data.map (fun row => row.map (fun x => x / m))
    match matSub newData (gauss newData) with
    | .error e => .error e
    | .ok residual => .ok ({ self with data := newData }, residual)

/-- `np.argmax`: index of the first occurrence of the maximum of a list
(0 on the empty list, which numpy rejects; no theorem uses that case). -/
def argmaxIdx : List ℕ → ℕ
  | [] => 0
  | x :: xs =>
    let r := argmaxIdx xs
    if x < xs.getD r 0 then r + 1 else 0

/-- The level-selection tail of `get_levels`, given the 30-bin histogram
`(counts, edges)` produced by `np.histogram`: the min level is the first
edge; if the top bin holds fewer than 10 entries and the second-to-top
fewer than 5, the max level is `edges[-rn]` (Python negative indexing) for
`rn = np.argmax(np.flipud(counts))`, else it is `edges[-2]`. -/
def get_levels_core (counts : List ℕ) (edges : List ℚ) : ℚ × ℚ :=
  let minlevel := edges.getD 0 0
  if counts.getD (counts.length - 1) 0 < 10 ∧ counts.getD (counts.length - 2) 0 < 5 then
    let rn := argmaxIdx counts.reverse
    (minlevel, edges.getD (if rn = 0 then 0 else edges.length - rn) 0)
  else
    (minlevel, edges.getD (edges.length - 2) 0)

/-- Gregorian leap-year test (models Python `datetime` calendar rules). -/
def isLeap (y : ℕ) : Bool :=
  (y % 4 = 0 && y % 100 != 0) || y % 400 = 0

/-- Days in a Gregorian year. -/
def daysInYear (y : ℕ) : ℕ :=
  if isLeap y then 366 else 365

/-- Days in a Gregorian month. -/
def daysInMonth (y m : ℕ) : ℕ :=
  if m = 2 then (if isLeap y then 29 else 28)
  else if m = 4 ∨ m = 6 ∨ m = 9 ∨ m = 11 then 30 else 31

/-- Number of leap years in `[1, y-1]`. -/
def leapsBefore (y : ℕ) : ℕ :=
  (y - 1) / 4 - (y - 1) / 100 + (y - 1) / 400

/-- Days in the months of year `y` strictly before month `m`. -/
def monthDaysBefore (y m : ℕ) : ℕ :=
  ((List.range (m - 1)).map (fun i => daysInMonth y (i + 1))).sum

/-- Day count of the Gregorian date `y-m-d` relative to 1601-01-01
(models Python `datetime(y, m, d) - datetime(1601, 1, 1)`). -/
def daysSince1601 (y m d : ℕ) : ℕ :=
  365 * (y - 1601) + (leapsBefore y - leapsBefore 1601) + monthDaysBefore y m + (d - 1)

/-- Seconds since the 1601-01-01 epoch of midnight on `y-m-d`. -/
def secondsOf (y m d : ℕ) : ℕ :=
  daysSince1601 y m d * 86400

/-- Windows FILETIME-style tick count (100-nanosecond units since
1601-01-01) of midnight on `y-m-d`. -/
def dateToTicks (y m d : ℕ) : ℕ :=
  daysSince1601 y m d * 86400 * 10 ^ 7

/-- Walk years forward from 1601 to locate a day count (fuelled loop). -/
def yearFromDays : ℕ → ℕ → ℕ → ℕ × ℕ
  | 0, y, d => (y, d)
  | Nat.succ f, y, d =>
    if d < daysInYear y then (y, d) else yearFromDays f (y + 1) (d - daysInYear y)

/-- Walk the months of year `y` to locate a day-of-year (fuelled loop). -/
def monthFromDays (y : ℕ) : ℕ → ℕ → ℕ → ℕ × ℕ
  | 0, m, d => (m, d)
  | Nat.succ f, m, d =>
    if d < daysInMonth y m then (m, d) else monthFromDays y f (m + 1) (d - daysInMonth y m)

/-- Gregorian date of a day count relative to 1601-01-01. -/
def civilFromDays (n : ℕ) : ℕ × ℕ × ℕ :=
  let yr := yearFromDays (n + 1) 1601 n
  let mr := monthFromDays yr.1 12 1 yr.2
  (yr.1, mr.1, mr.2 + 1)

/-- Date and time of a whole-second count since the 1601-01-01 epoch. -/
def dateTimeOfSeconds (s : ℕ) : ℕ × ℕ × ℕ × ℕ × ℕ × ℕ :=
  let c := civilFromDays (s / 86400)
  (c.1, c.2.1, c.2.2, s % 86400 / 3600, s % 86400 % 3600 / 60, s % 60)

/-- A minimal synthetic file: width 2, height 2, `versleemdata = 2`, a
256-byte metadata block whose first byte is the sentinel tag 255, and the
8-byte pixel payload `[1, 2, 3, 4]` (little-endian 16-bit, row-major). -/
def c1File : List ℕ :=
  List.replicate 40 0
    ++ [2, 0, 2, 0, 1, 0, 0, 0]
    ++ List.replicate 56 0
    ++ List.replicate 26 0
    ++ [2, 0]
    ++ [255] ++ List.replicate 255 0
    ++ [1, 0, 2, 0, 3, 0, 4, 0]

/-- The decoded record of `c1File`. -/
def c1Expected : DecodedImage :=
  { metadata :=
      [("id", .bytes []), ("size", .int 0), ("version", .int 0),
       ("bitsperpix", .int 0), ("width", .int 2), ("height", .int 2),
       ("isize", .int 0), ("iversion", .int 0), ("colorscale_low", .int 0),
       ("colorscale_high", .int 0), ("timestamp", .time 0),
       ("mask_xshift", .int 0), ("mask_yshift", .int 0),
       ("usemask", .bytes [0]), ("att_markupsize", .int 0), ("spin", .int 0)],
    noimg := 1, versleemdata := 2, data := [[3, 4], [1, 2]] }

/-- The same synthetic file with the stored width bytes `[1, 128]`, whose
16-bit pattern `0x8001` has the high bit set. -/
def c10File : List ℕ :=
  List.replicate 40 0
    ++ [1, 128, 2, 0, 1, 0, 0, 0]
    ++ List.replicate 56 0
    ++ List.replicate 26 0
    ++ [2, 0]
    ++ [255] ++ List.replicate 255 0
    ++ [1, 0, 2, 0, 3, 0, 4, 0]

/-- The decoded record of `c10File`: the negative width flows through the
seek (past end of file, reading nothing) and the reshape (numpy treats the
negative entry as the wildcard, inferring 0 columns), so the decode
completes with a 2×0 pixel grid. -/
def c10Expected : DecodedImage :=
  { metadata :=
      [("id", .bytes []), ("size", .int 0), ("version", .int 0),
       ("bitsperpix", .int 0), ("width", .int (-32767)), ("height", .int 2),
       ("isize", .int 0), ("iversion", .int 0), ("colorscale_low", .int 0),
       ("colorscale_high", .int 0), ("timestamp", .time 0),
       ("mask_xshift", .int 0), ("mask_yshift", .int 0),
       ("usemask", .bytes [0]), ("att_markupsize", .int 0), ("spin", .int 0)],
    noimg := 1, versleemdata := 2, data := [[], []] }

/-- A 30-bin histogram with 5 entries in the bottom bin, a single entry in
the top bin, and an empty second-to-top bin. -/
def c9Counts : List ℕ :=
  [5] ++ List.replicate 28 0 ++ [1]

/-- Integer bin edges 0, 1, ..., 30 for the 30-bin histogram. -/
def c9Edges : List ℚ :=
  (List.range 31).map (fun i => (i : ℚ))

section Helpers

/-- Decompose `Except` bind equalities. -/
theorem except_bind_ok {ε α β : Type} (x : Except ε α) (f : α → Except ε β) (b : β) :
    (x >>= f) = .ok b ↔ ∃ a, x = .ok a ∧ f a = .ok b := by
  cases x <;> simp [Bind.bind, Except.bind]

/-- Setting a key makes it readable. -/
theorem dictGet_dictSet_self (md : List (String × MVal)) (k : String) (v : MVal) :
    dictGet (dictSet md k v) k = some v := by
  induction md with
  | nil => simp [dictSet, dictGet]
  | cons p rest ih =>
    obtain ⟨k0, v0⟩ := p
    by_cases h : k0 = k
    · subst h
      simp [dictSet, dictGet]
    · simp [dictSet, dictGet, h, ih]

/-- Setting one key leaves the others unchanged. -/
theorem dictGet_dictSet_ne (md : List (String × MVal)) (k k2 : String) (v : MVal)
    (h : k ≠ k2) : dictGet (dictSet md k v) k2 = dictGet md k2 := by
  induction md with
  | nil => simp [dictSet, dictGet, h]
  | cons p rest ih =>
    obtain ⟨k0, v0⟩ := p
    by_cases h0 : k0 = k
    · subst h0
      simp [dictSet, dictGet, h]
    · by_cases h2 : k0 = k2 <;> simp [dictSet, dictGet, h0, h2, ih, Ne.symm h]

/-- `argmaxIdx` of a nonempty list is in range. -/
theorem argmaxIdx_lt_length (l : List ℕ) (h : l ≠ []) : argmaxIdx l < l.length := by
  induction l with
  | nil => exact absurd rfl h
  | cons x xs ih =>
    simp only [argmaxIdx]
    by_cases hc : x < xs.getD (argmaxIdx xs) 0
    · rw [if_pos hc]
      have hxs : xs ≠ [] := by
        intro he
        rw [he] at hc
        simp [argmaxIdx] at hc
      simpa using Nat.succ_lt_succ (ih hxs)
    · rw [if_neg hc]
      simp

/-- The entry at `argmaxIdx` dominates every entry of the list. -/
theorem argmaxIdx_is_max (l : List ℕ) (i : ℕ) (hi : i < l.length) :
    l.getD i 0 ≤ l.getD (argmaxIdx l) 0 := by
  induction l generalizing i with
  | nil => simp at hi
  | cons x xs ih =>
    simp only [argmaxIdx]
    by_cases hc : x < xs.getD (argmaxIdx xs) 0
    · rw [if_pos hc]
      cases i with
      | zero => simpa using hc.le
      | succ j => simpa using ih j (by simpa using hi)
    · rw [if_neg hc]
      push_neg at hc
      cases i with
      | zero => simp
      | succ j =>
        have := ih j (by simpa using hi)
        simp only [List.getD_cons_succ, List.getD_cons_zero]
        omega

/-- Entries strictly before `argmaxIdx` are strictly below it: `np.argmax`
returns the FIRST index attaining the maximum. -/
theorem argmaxIdx_first (l : List ℕ) (i : ℕ) (hi : i < argmaxIdx l) :
    l.getD i 0 < l.getD (argmaxIdx l) 0 := by
  induction l generalizing i with
  | nil => simp [argmaxIdx] at hi
  | cons x xs ih =>
    simp only [argmaxIdx] at hi ⊢
    by_cases hc : x < xs.getD (argmaxIdx xs) 0
    · rw [if_pos hc] at hi ⊢
      cases i with
      | zero => simpa using hc
      | succ j => simpa using ih j (by omega)
    · rw [if_neg hc] at hi
      omega

/-- `getD` through `reverse`. -/
theorem getD_reverse_eq (l : List ℕ) (i : ℕ) (hi : i < l.length) :
    l.reverse.getD i 0 = l.getD (l.length - 1 - i) 0 := by
  have h1 : i < l.reverse.length := by simpa using hi
  have h2 : l.length - 1 - i < l.length := by omega
  rw [List.getD_eq_getElem _ _ h1, List.getD_eq_getElem _ _ h2]
  exact List.getElem_reverse h1

/-- Folding `max` commutes with a monotone map. -/
theorem foldl_max_map (f : ℚ → ℚ) (hf : Monotone f) (x : ℚ) (l : List ℚ) :
    (l.map f).foldl max (f x) = f (l.foldl max x) := by
  induction l generalizing x with
  | nil => rfl
  | cons y ys ih =>
    simp only [List.map_cons, List.foldl_cons]
    rw [← hf.map_max, ih]

/-- `List.max?` commutes with a monotone map. -/
theorem max?_map_mono (f : ℚ → ℚ) (hf : Monotone f) (l : List ℚ) :
    (l.map f).max? = l.max?.map f := by
  cases l with
  | nil => rfl
  | cons x xs =>
    show some ((xs.map f).foldl max (f x)) = _
    rw [foldl_max_map f hf]
    rfl

end Helpers

set_option maxRecDepth 40000

/-- C2: the claim says an unrecognized tag advances the cursor by exactly
1 byte (zero extra payload).  The code instead leaves the Python local
`offset` untouched in the unknown-tag branch: when the first record of the
block has an unknown tag (block `[50]`) the skip raises
`UnboundLocalError`, and when an unknown tag follows a record of offset 8
(tag 50 at cursor 9 after a Mitutoyo record) the cursor jumps by 8 + 1 = 9,
skipping the sentinel 255 at cursor 10 and running to the end of the block
instead of stopping at the sentinel. -/
theorem c2_unknown_tag_stale_offset :
    decodeMeta [50] { md := [], lastOffset := Option.none } =
      .error .unboundLocalOffset ∧
    decodeMeta [100, 1, 2, 3, 4, 5, 6, 7, 8, 50, 255, 0, 0, 0, 0, 0, 0, 0]
        { md := [], lastOffset := Option.none } =
      .ok ({ md := [("Mitutoyo X", .pairFU [1, 2, 3, 4] "mm"),
                    ("Mitutoyo Y", .pairFU [5, 6, 7, 8] "mm")],
             lastOffset := some 8 }, 18, .endOfBlock) := by
  exact ⟨by decide, by decide⟩

/-- C6 counterexample: the unit table entry for unit code 5 is `" K"` (with
a leading space), not `"K"` as the claim states: a standard field whose
name region is `[75, 53]` (name `"K"`, unit digit `'5'`) decodes to the
unit string `" K"`. -/
theorem c6_unit_table_counterexample :
    read_field [0, 75, 53, 0, 1, 2, 3, 4] 0 = .ok ("K", " K", [1, 2, 3, 4], 7) ∧
    (" K" : String) ≠ "K" := by
  exact ⟨by decide, by decide⟩

/-- C6 (amended): a standard-field record whose unit byte is the ASCII
digit of `u ≤ 9` decodes to the unit string `units_dict[u]`, where
`units_dict = ["", "V", "mA", "A", "°C", " K", "mV", "pA", "nA", "µA"]`
(entry 5 is `" K"` with a leading space); in particular code 0 yields `""`
and code 9 yields `"µA"`; and a unit byte that is not an ASCII digit is a
decode error (`ValueError`). -/
theorem c6_unit_code :
    (∀ (header : List ℕ) (pos u : ℕ), u ≤ 9 →
      (takeUntilNull (header.drop (pos + 1))).getLast? = some (48 + u) →
      pos + (takeUntilNull (header.drop (pos + 1))).length + 6 ≤ header.length →
      read_field header pos =
        .ok (decodeCp1252 (takeUntilNull (header.drop (pos + 1))).dropLast,
             units_dict.getD u "",
             (header.drop (pos + (takeUntilNull (header.drop (pos + 1))).length + 2)).take 4,
             (takeUntilNull (header.drop (pos + 1))).length + 5)) ∧
    (∀ (header : List ℕ) (pos lastB : ℕ),
      (takeUntilNull (header.drop (pos + 1))).getLast? = some lastB →
      ¬ (48 ≤ lastB ∧ lastB ≤ 57) →
      read_field header pos = .error .valueError) ∧
    units_dict.getD 0 "" = "" ∧ units_dict.getD 9 "" = "µA" ∧
    units_dict = ["", "V", "mA", "A", "°C", " K", "mV", "pA", "nA", "µA"] := by
  refine ⟨?_, ?_, rfl, rfl, rfl⟩
  · intro header pos u hu hlast hlen
    unfold read_field
    rw [hlast]
    dsimp only
    rw [if_pos (by constructor <;> omega)]
    unfold slice4
    rw [if_pos (by omega)]
    have hsub : 48 + u - 48 = u := by omega
    rw [hsub]
  · intro header pos lastB hlast hnd
    unfold read_field
    rw [hlast]
    dsimp only
    rw [if_neg hnd]

/-- C6 witness: a concrete record with unit code 0 decodes to the empty
unit string. -/
theorem c6_unit_code_witness :
    read_field [0, 75, 48, 0, 9, 9, 9, 9] 0 = .ok ("K", "", [9, 9, 9, 9], 7) :=
  (c6_unit_code.1 [0, 75, 48, 0, 9, 9, 9, 9] 0 0 (by decide) (by decide)
    (by decide)).trans (by decide)

/-- C7: the timestamp conversion maps a tick count (100-nanosecond units
since 1601-01-01) to `ticks / 10^7` seconds past the 1601-01-01 epoch;
whole-second tick counts round-trip exactly, and in particular the tick
count of 2016-01-01T00:00:00 converts back to exactly that date and
time. -/
theorem c7_timestamp_roundtrip :
    (∀ t : ℕ, convert_ad_timestamp t = (t : ℚ) / 10 ^ 7) ∧
    (∀ s : ℕ, convert_ad_timestamp (s * 10 ^ 7) = (s : ℚ)) ∧
    convert_ad_timestamp (dateToTicks 2016 1 1) = ((secondsOf 2016 1 1 : ℕ) : ℚ) ∧
    dateTimeOfSeconds (secondsOf 2016 1 1) = (2016, 1, 1, 0, 0, 0) := by
  have hdiv : ∀ t : ℕ, convert_ad_timestamp t = (t : ℚ) / 10 ^ 7 := by
    intro t
    unfold convert_ad_timestamp
    rw [Rat.mkRat_eq_div]
    push_cast
    norm_num
  have hsec : ∀ s : ℕ, convert_ad_timestamp (s * 10 ^ 7) = (s : ℚ) := by
    intro s
    rw [hdiv]
    push_cast
    field_simp
    norm_num
  refine ⟨hdiv, hsec, ?_, by decide⟩
  have hdt : dateToTicks 2016 1 1 = secondsOf 2016 1 1 * 10 ^ 7 := by
    unfold dateToTicks secondsOf
    ring
  exact hdt ▸ hsec (secondsOf 2016 1 1)

/-- C9 counterexample: on the histogram `c9Counts` (top bin count 1,
second-to-top 0, bottom bin 5) with edges 0..30, the hot-pixel branch is
taken and the top bin is non-empty, so the claimed rule (lower edge of the
first non-empty bin walking back from the top) would give edge 29; the code
returns edge 2 instead (`edges[-argmax(flipud(counts))]`). -/
theorem c9_walkback_counterexample :
    c9Counts.getD 29 0 < 10 ∧ c9Counts.getD 28 0 < 5 ∧
    c9Counts.getD 29 0 ≠ 0 ∧
    c9Edges.getD 29 0 = 29 ∧
    (get_levels_core c9Counts c9Edges).2 = 2 ∧ ((2 : ℚ) ≠ 29) := by
  refine ⟨by decide, by decide, by decide, by decide, by decide, by decide⟩

/-- C9 (amended): on a 30-bin histogram meeting the hot-pixel condition
(top bin below 10, second-to-top below 5), the code takes the bin holding
the LARGEST count, ties resolved toward the top (`np.argmax` on the
reversed counts), and returns `edges[-rn]` under Python negative indexing
for `rn` the distance of that bin from the top: `edges[0]` when the top bin
itself is the chosen maximum, else `edges[j + 2]` where `j` is the chosen
bin's index; otherwise the max level is the second-to-top edge. -/
theorem c9_hotpixel_levels (counts : List ℕ) (edges : List ℚ)
    (hc : counts.length = 30) (he : edges.length = 31)
    (h1 : counts.getD 29 0 < 10) (h2 : counts.getD 28 0 < 5) :
    ∃ j : ℕ, j ≤ 29 ∧
      (∀ k, k < 30 → counts.getD k 0 ≤ counts.getD j 0) ∧
      (∀ k, j < k → k < 30 → counts.getD k 0 < counts.getD j 0) ∧
      (get_levels_core counts edges).2 =
        (if j = 29 then edges.getD 0 0 else edges.getD (j + 2) 0) := by
  have hne : counts.reverse ≠ [] := by
    intro h
    have := congrArg List.length h
    simp [hc] at this
  have hrevlen : counts.reverse.length = 30 := by simp [hc]
  set rn := argmaxIdx counts.reverse with hrn
  have hrnlt : rn < 30 := by
    have := argmaxIdx_lt_length counts.reverse hne
    omega
  have hrev : ∀ i, i < 30 → counts.reverse.getD i 0 = counts.getD (29 - i) 0 := by
    intro i hi
    have := getD_reverse_eq counts i (by omega)
    rw [this, hc]
  refine ⟨29 - rn, by omega, ?_, ?_, ?_⟩
  · intro k hk
    have h1 := argmaxIdx_is_max counts.reverse (29 - k) (by omega)
    rw [hrev (29 - k) (by omega), hrev rn hrnlt] at h1
    have hkk : 29 - (29 - k) = k := by omega
    rw [hkk] at h1
    exact h1
  · intro k hjk hk
    have h1 := argmaxIdx_first counts.reverse (29 - k) (by omega)
    rw [hrev (29 - k) (by omega), hrev rn hrnlt] at h1
    have hkk : 29 - (29 - k) = k := by omega
    rw [hkk] at h1
    exact h1
  · unfold get_levels_core
    rw [hc, he]
    rw [if_pos ⟨by simpa using h1, by simpa using h2⟩]
    simp only [← hrn]
    by_cases h0 : rn = 0
    · rw [h0]
      rw [if_pos (by omega)]
      simp
    · rw [if_neg (by omega : ¬ 29 - rn = 29)]
      rw [if_neg h0]
      have : 31 - rn = 29 - rn + 2 := by omega
      rw [this]

/-- C9 witness: on the concrete histogram `c9Counts`, the chosen bin is
bin 0 (the unique maximum), so the returned max level is edge 2. -/
theorem c9_hotpixel_levels_witness :
    (get_levels_core c9Counts c9Edges).2 = c9Edges.getD 2 0 := by
  obtain ⟨j, hj, hmax, hfirst, heq⟩ :=
    c9_hotpixel_levels c9Counts c9Edges (by decide) (by decide) (by decide) (by decide)
  have h5 : (5 : ℕ) ≤ c9Counts.getD j 0 := hmax 0 (by decide)
  have hsmall : ∀ k, k < 30 → k ≠ 0 → c9Counts.getD k 0 ≤ 1 := by decide
  have hj0 : j = 0 := by
    by_contra hne
    have := hsmall j (by omega) hne
    omega
  rw [hj0] at heq
  simpa using heq

/-- C10: every 16-bit header field is decoded as signed little-endian,
so a stored width or height with the high bit set decodes to a negative
value, and the decoder uses it directly in the end-of-file seek and the
height-by-width reshape with no positivity check: on `c10File` (stored
width bytes `[1, 128]`, i.e. -32767) the pixel stage seeks past the end of
the file (reading nothing) and numpy's reshape treats the negative entry
as the wildcard dimension, so the decode completes with a 2×0 pixel grid —
the file is never rejected. -/
theorem c10_signed_dimensions :
    (∀ b0 b1 : ℕ, b0 < 256 → 128 ≤ b1 → b1 < 256 →
      toSigned16 (b0 + 256 * b1) < 0) ∧
    readI16 c10File 40 = .ok (-32767) ∧
    readPixelData c10File 2 (-32767) = .ok [[], []] ∧
    loadFile c10File = .ok c10Expected ∧
    dictGet c10Expected.metadata "width" = some (.int (-32767)) ∧
    c10Expected.data = [[], []] := by
  refine ⟨?_, by decide, by decide, by decide, by decide, by decide⟩
  intro b0 b1 h0 h1 h2
  unfold toSigned16
  rw [if_neg (by omega)]
  omega

/-- C10 witness: the concrete width pattern of `c10File` is negative. -/
theorem c10_signed_dimensions_witness :
    toSigned16 (1 + 256 * 128) < 0 :=
  c10_signed_dimensions.1 1 128 (by decide) (by decide) (by decide)

/-- C5: the field-of-view record handler: a string payload starting with
`"LEED"` sets the LEED flag and clears the FOV; one starting with `"none"`
clears the FOV and leaves the LEED flag unchanged; `"12.5µm"` parses to the
pair `(12.5, "µm")`; and when the prefix before `"µm"` fails to parse as a
float the FOV entry is left untouched (decoding continues). -/
theorem c5_fov_branch :
    (∀ (md : List (String × MVal)) (s : String), s.take 4 = "LEED" →
      dictGet (fovBranch md s) "LEED" = some (.bool true) ∧
      dictGet (fovBranch md s) "FOV" = some .none) ∧
    (∀ (md : List (String × MVal)) (s : String), s.take 4 = "none" →
      dictGet (fovBranch md s) "FOV" = some .none ∧
      dictGet (fovBranch md s) "LEED" = dictGet md "LEED") ∧
    (∀ md : List (String × MVal),
      dictGet (fovBranch md "12.5µm") "FOV" = some (.pairQU (25/2) "µm")) ∧
    (∀ (md : List (String × MVal)) (s : String),
      s.take 4 ≠ "LEED" → s.take 4 ≠ "none" →
      parsePyFloat ((s.splitOn "µm").headD "") = Option.none →
      dictGet (fovBranch md s) "FOV" = dictGet md "FOV") := by
  refine ⟨?_, ?_, ?_, ?_⟩
  · intro md s hs
    unfold fovBranch
    rw [if_pos hs]
    exact ⟨by rw [dictGet_dictSet_ne _ _ _ _ (by decide), dictGet_dictSet_self],
           dictGet_dictSet_self _ _ _⟩
  · intro md s hs
    unfold fovBranch
    rw [if_neg (by rw [hs]; decide), if_pos hs]
    exact ⟨dictGet_dictSet_self _ _ _,
           dictGet_dictSet_ne _ _ _ _ (by decide)⟩
  · intro md
    unfold fovBranch
    rw [if_neg (by decide), if_neg (by decide)]
    have hp : parsePyFloat (("12.5µm".splitOn "µm").headD "") = some (25/2) := by
      with_unfolding_all decide
    rw [hp]
    exact dictGet_dictSet_self _ _ _
  · intro md s h1 h2 hp
    unfold fovBranch
    rw [if_neg h1, if_neg h2, hp]
    exact dictGet_dictSet_ne _ _ _ _ (by decide)

/-- C5 witness: the three FOV string shapes at concrete inputs. -/
theorem c5_fov_branch_witness :
    dictGet (fovBranch [] "LEED foo") "LEED" = some (.bool true) ∧
    dictGet (fovBranch [] "none") "FOV" = some .none ∧
    dictGet (fovBranch [] "bogus") "FOV" = dictGet ([] : List (String × MVal)) "FOV" :=
  ⟨(c5_fov_branch.1 [] "LEED foo" (by decide)).1,
   (c5_fov_branch.2.1 [] "none" (by decide)).1,
   c5_fov_branch.2.2.2 [] "bogus" (by decide) (by decide)
     (by with_unfolding_all decide)⟩

/-- C4: CCD normalization with equal declared widths and heights returns
the element-wise quotient of the two pixel grids rescaled so its maximum is
exactly 1, leaving both argument images untouched; differing widths or
heights raise the distinct `DimensionError` before any pixel data is read. -/
theorem c4_normalize_on_ccd :
    (∀ a b : LEEMState,
      (a.widthMeta ≠ b.widthMeta ∨ a.heightMeta ≠ b.heightMeta) →
      normalizeOnCCD a b = .error .dimensionError) ∧
    (∀ (a b : LEEMState) (q : List (List ℚ)) (m : ℚ),
      a.widthMeta = b.widthMeta → a.heightMeta = b.heightMeta →
      elemDiv a.data b.data = .ok q → matMax q = some m → 0 < m →
      normalizeOnCCD a b =
        .ok (a, b, q.map (fun row => row.map (fun x => x / m))) ∧
      matMax (q.map (fun row => row.map (fun x => x / m))) = some 1) := by
  constructor
  · intro a b h
    unfold normalizeOnCCD
    rw [if_pos h]
  · intro a b q m hw hh hdiv hmax hpos
    have hcond : ¬ (a.widthMeta ≠ b.widthMeta ∨ a.heightMeta ≠ b.heightMeta) := by
      push_neg
      exact ⟨hw, hh⟩
    have hmono : Monotone (fun x : ℚ => x / m) := by
      intro x y hxy
      exact div_le_div_of_nonneg_right hxy hpos.le
    have hscaled : matMax (q.map (fun row => row.map (fun x => x / m))) = some 1 := by
      unfold matMax at hmax ⊢
      rw [← List.map_flatten, max?_map_mono _ hmono, hmax]
      simp [div_self (ne_of_gt hpos)]
    constructor
    · unfold normalizeOnCCD
      rw [if_neg hcond, hdiv]
      dsimp only
      rw [hmax]
    · exact hscaled

/-- C4 witness: a concrete pair of 1×1 images with equal metadata divides
to `[[2]]` and rescales to `[[1]]`; a mismatched pair raises the dimension
error. -/
theorem c4_normalize_on_ccd_witness :
    normalizeOnCCD ⟨1, 1, [], [[2]]⟩ ⟨1, 1, [], [[1]]⟩ =
      .ok (⟨1, 1, [], [[2]]⟩, ⟨1, 1, [], [[1]]⟩, [[1]]) ∧
    normalizeOnCCD ⟨1, 2, [], [[2]]⟩ ⟨1, 1, [], [[1]]⟩ = .error .dimensionError := by
  constructor
  · have h := (c4_normalize_on_ccd.2 ⟨1, 1, [], [[2]]⟩ ⟨1, 1, [], [[1]]⟩ [[2]] 2
      rfl rfl (by with_unfolding_all decide) (by with_unfolding_all decide)
      (by norm_num)).1
    exact h.trans (by with_unfolding_all decide)
  · exact c4_normalize_on_ccd.1 _ _ (by right; decide)

/-- C3 counterexample: `filterInelasticBkg` does NOT leave the stored pixel
grid unchanged: on a 1×1 image with pixel value 2 it overwrites the stored
grid with the max-normalized `[[1]]`. -/
theorem c3_filter_mutates_counterexample :
    (filterInelasticBkg id ⟨1, 1, [], [[2]]⟩).map (fun r => r.1.data) = .ok [[1]] ∧
    ([[(1 : ℚ)]] : List (List ℚ)) ≠ [[2]] := by
  exact ⟨by with_unfolding_all decide, by decide⟩

/-- C3 (amended): `normalizeOnCCD` leaves both images (pixels and metadata)
unchanged and returns a freshly derived array, but `filterInelasticBkg`,
while leaving the metadata fields unchanged, overwrites the stored pixel
grid with its max-normalized version before returning the residual. -/
theorem c3_post_processing_frame :
    (∀ (a b : LEEMState) (r : LEEMState × LEEMState × List (List ℚ)),
      normalizeOnCCD a b = .ok r → r.1 = a ∧ r.2.1 = b) ∧
    (∀ (g : List (List ℚ) → List (List ℚ)) (st : LEEMState)
        (r : LEEMState × List (List ℚ)),
      filterInelasticBkg g st = .ok r →
      r.1.widthMeta = st.widthMeta ∧ r.1.heightMeta = st.heightMeta ∧
      r.1.otherMetadata = st.otherMetadata ∧
      ∃ m, matMax st.data = some m ∧
        r.1.data = st.data.map (fun row => row.map (fun x => x / m))) := by
  constructor
  · intro a b r h
    unfold normalizeOnCCD at h
    split at h
    · simp at h
    · split at h
      · simp at h
      · split at h
        · simp at h
        · simp only [Except.ok.injEq] at h
          subst h
          exact ⟨rfl, rfl⟩
  · intro g st r h
    unfold filterInelasticBkg at h
    split at h
    · simp at h
    · rename_i m hm
      dsimp only at h
      split at h
      · simp at h
      · simp only [Except.ok.injEq] at h
        subst h
        exact ⟨rfl, rfl, rfl, m, hm, rfl⟩

/-- C3 witness: on a concrete image the filter run keeps the metadata
entry list intact even though it rewrites the pixels. -/
theorem c3_post_processing_frame_witness :
    ((filterInelasticBkg id ⟨1, 1, [("a", .int 7)], [[2]]⟩).map
      (fun r => r.1.otherMetadata)) = .ok [("a", .int 7)] := by
  have hrun : filterInelasticBkg id ⟨1, 1, [("a", .int 7)], [[2]]⟩ =
      .ok (⟨1, 1, [("a", .int 7)], [[1]]⟩, [[0]]) := by
    with_unfolding_all decide
  have h := (c3_post_processing_frame.2 id ⟨1, 1, [("a", .int 7)], [[2]]⟩ _ hrun).2.2.1
  rw [hrun]
  exact congrArg Except.ok h

/-- C8 counterexample: the decode loop does not always stop at a 255 tag or
at the end of the block: on the one-byte block `[11]` (a known standard tag
with no payload) it aborts with `IndexError` at cursor 0, before either
stopping condition is reached. -/
theorem c8_error_stop_counterexample :
    decodeMeta [11] { md := [], lastOffset := Option.none } = .error .indexError := by
  decide

/-- C8 (amended): the decode loop always terminates within
`header.length + 1` iterations — the fuelled loop never runs out of fuel —
and it stops either at a 255 tag byte (with the final cursor inside the
block and pointing at a 255 byte), at the end of the block (final cursor at
or past the declared length), or with a decode error; the cursor never
moves past the block's declared length. -/
theorem c8_loop_termination :
    ∀ (header : List ℕ) (fuel pos : ℕ) (st : MetaState),
      pos ≤ header.length → header.length + 1 ≤ fuel + pos →
      decodeMetaAux header fuel pos st ≠ Option.none ∧
      (∀ st2 p r, decodeMetaAux header fuel pos st = some (.ok (st2, p, r)) →
        p ≤ header.length ∧
        (r = .sentinel → p < header.length ∧ header.getD p 0 = 255) ∧
        (r = .endOfBlock → header.length ≤ p)) := by
  intro header fuel
  induction fuel with
  | zero =>
    intro pos st hpos hfuel
    omega
  | succ fuel ih =>
    intro pos st hpos hfuel
    unfold decodeMetaAux
    by_cases hlt : pos < header.length
    · rw [if_pos hlt]
      dsimp only
      by_cases h255 : header.getD pos 0 = 255
      · rw [if_pos h255]
        refine ⟨by simp, ?_⟩
        intro st2 p r h
        simp only [Option.some.injEq, Except.ok.injEq, Prod.mk.injEq] at h
        obtain ⟨-, hp, hr⟩ := h
        refine ⟨by omega, fun _ => ⟨by omega, by rwa [← hp]⟩, fun hrr => ?_⟩
        rw [← hr] at hrr
        cases hrr
      · rw [if_neg h255]
        cases hrec : recordAt header pos (header.getD pos 0) st.md st.lastOffset with
        | error e =>
          refine ⟨by simp, ?_⟩
          intro st2 p r h
          simp at h
        | ok v =>
          obtain ⟨md1, off⟩ := v
          dsimp only
          by_cases hstop : header.length - (pos + 1) < off
          · rw [if_pos hstop]
            refine ⟨by simp, ?_⟩
            intro st2 p r h
            simp at h
          · rw [if_neg hstop]
            exact ih (pos + off + 1) { md := md1, lastOffset := some off }
              (by omega) (by omega)
    · rw [if_neg hlt]
      refine ⟨by simp, ?_⟩
      intro st2 p r h
      simp only [Option.some.injEq, Except.ok.injEq, Prod.mk.injEq] at h
      obtain ⟨-, hp, hr⟩ := h
      refine ⟨by omega, fun hrr => ?_, fun _ => by omega⟩
      rw [← hr] at hrr
      cases hrr

/-- C8 witness: on the one-byte block `[255]` the fuelled loop does not run
out of fuel and stops at the sentinel with the cursor in range. -/
theorem c8_loop_termination_witness :
    decodeMetaAux [255] 2 0 { md := [], lastOffset := Option.none } ≠ Option.none :=
  (c8_loop_termination [255] 2 0 { md := [], lastOffset := Option.none }
    (by decide) (by decide)).1

/-- The width and height a successful header parse carries are exactly the
signed 16-bit fields at byte offsets 40 and 42. -/
theorem parseHeader_width_height (file : List ℕ) (info : HeaderInfo)
    (h : parseHeader file = .ok info) :
    readI16 file 40 = .ok info.width ∧ readI16 file 42 = .ok info.height := by
  unfold parseHeader at h
  simp only [except_bind_ok] at h
  obtain ⟨size, -, version, -, bp, -, w, hw, hgt, hh, ni, -, rs, -, step, -,
    isize, -, iv, -, cl, -, ch, -, ts, -, mx, -, my, -, mkp, -, sp, -, vs, -,
    hfin⟩ := h
  simp only [Except.ok.injEq] at hfin
  rw [← hfin]
  exact ⟨hw, hh⟩

/-- C1: for every file the decoder accepts, the pixel grid is obtained from
the signed 16-bit width and height at offsets 40/42 by the pixel stage; the
pixel stage on nonnegative dimensions whose payload length matches seeks to
`file_end - 2*h*w`, reads the remaining bytes as little-endian unsigned
16-bit samples, reshapes them row-major into `h` rows of `w` columns and
reverses the row order; and the minimal synthetic file `c1File`
(width 2, height 2, metadata block version 2, 256-byte metadata block with
tag 255 at position 0, payload `[1,2,3,4]`) decodes to the pixel grid
`[[3,4],[1,2]]`. -/
theorem c1_pixel_pipeline :
    (∀ (file : List ℕ) (img : DecodedImage), loadFile file = .ok img →
      ∃ w h, readI16 file 40 = .ok w ∧ readI16 file 42 = .ok h ∧
        readPixelData file h w = .ok img.data) ∧
    (∀ (file : List ℕ) (h w : ℤ), 0 ≤ h → 0 ≤ w →
      2 * h * w ≤ (file.length : ℤ) →
      (toU16List (file.drop ((file.length : ℤ) - 2 * h * w).toNat)).length =
        h.toNat * w.toNat →
      readPixelData file h w =
        .ok ((reshapeRows
          (toU16List (file.drop ((file.length : ℤ) - 2 * h * w).toNat))
          h.toNat w.toNat).reverse)) ∧
    loadFile c1File = .ok c1Expected ∧
    c1Expected.data = [[3, 4], [1, 2]] := by
  refine ⟨?_, ?_, by decide, by decide⟩
  · intro file img h
    unfold loadFile at h
    cases hph : parseHeader file with
    | error e => rw [hph] at h; simp at h
    | ok info =>
      rw [hph] at h
      dsimp only at h
      cases hdm : decodeMeta info.imgHeader { md := info.md, lastOffset := Option.none } with
      | error e => rw [hdm] at h; simp at h
      | ok v =>
        rw [hdm] at h
        dsimp only at h
        obtain ⟨st, p, r⟩ := v
        cases hpx : readPixelData file info.height info.width with
        | error e => rw [hpx] at h; simp at h
        | ok px =>
          rw [hpx] at h
          dsimp only at h
          simp only [Except.ok.injEq] at h
          obtain ⟨hw, hh⟩ := parseHeader_width_height file info hph
          exact ⟨info.width, info.height, hw, hh, by rw [hpx, ← h]⟩
  · intro file h w hh hw hlen hcount
    unfold readPixelData
    rw [if_neg (by omega)]
    dsimp only
    unfold npReshape2
    rw [if_neg (by omega), if_neg (by omega), if_neg (by omega), if_pos hcount]
    rfl

/-- C1 witness: the pixel stage on the synthetic file with height 2 and
width 2 returns the vertically flipped 2×2 grid. -/
theorem c1_pixel_pipeline_witness :
    readPixelData c1File 2 2 = .ok [[3, 4], [1, 2]] :=
  (c1_pixel_pipeline.2.1 c1File 2 2 (by decide) (by decide) (by decide)
    (by decide)).trans (by decide)

end LEEM
